import Mathlib

/-!
# Verification of the financial_analysis repository specification

Shallow embedding of the repository's core (cache coordinator in
`src/main.py`, store in `src/database.py`, fetch boundary in
`src/datafetch.py`, indicator engine in `src/analysis.py`) and proofs
settling the frozen claims about it.

Dates are embedded as integers (calendar-day numbers), prices as
rationals; pandas undefined/NaN entries arising from insufficient window
history are embedded as `Option.none`; IEEE special values produced by
actual float arithmetic (division by zero) are embedded by the `EF` type.
-/

/-- Python exception kinds that the embedded code can raise.
`missingColumn` is the explicit `ValueError("Data must contain ...")`
raised by the precondition checks in `calculate_returns` and `atr`
(the spec's `MissingColumnError`); `keyError` is the pandas `KeyError`
from an unchecked column lookup `self.data[...]`; `nameError` is a
Python `NameError` from an unbound module-level name; `operationalError`
is the SQL error raised when querying a table that does not exist. -/
inductive PyErr where
  | keyError
  | missingColumn
  | nameError
  | operationalError
deriving DecidableEq, Repr

instance {ε α : Type} [DecidableEq ε] [DecidableEq α] :
    DecidableEq (Except ε α) := fun a b =>
  match a, b with
  | .ok x, .ok y => decidable_of_iff (x = y) (by simp)
  | .error x, .error y => decidable_of_iff (x = y) (by simp)
  | .ok _, .error _ => isFalse (by simp)
  | .error _, .ok _ => isFalse (by simp)

/-- A stored price row; only the `date` column participates in the
cache/store logic (`database.py` filters and deletes by `date`). -/
structure Bar where
  date : Int
deriving DecidableEq, Repr

/-- The persistent store: one named table per symbol
(`FinancialDatabase`'s SQLite file), each table a list of rows in
insertion order. -/
def Store := List (String × List Bar)

instance : DecidableEq Store := by unfold Store; infer_instance

/-- `FinancialDatabase.table_exists` (database.py:71-73): true iff a
table of that name exists. -/
def tableExists (db : Store) (t : String) : Bool :=
  (db.lookup t).isSome

/-- The date filter built by `FinancialDatabase.load_data`
(database.py:58-64): `date >= start` when a start bound is given and
`date <= end` when an end bound is given (both inclusive). -/
def inBounds (s? e? : Option Int) (d : Int) : Bool :=
  (match s? with
   | none => true
   | some s => decide (s ≤ d)) &&
  (match e? with
   | none => true
   | some e => decide (d ≤ e))

/-- `FinancialDatabase.load_data` (database.py:44-69): runs
`SELECT * FROM {table_name}` with the optional date conditions.  The
query has no `ORDER BY`, so rows come back in stored order; selecting
from a table that does not exist raises an SQL operational error. -/
def loadData (db : Store) (t : String) (s? e? : Option Int) :
    Except PyErr (List Bar) :=
  match db.lookup t with
  | none => .error .operationalError
  | some rows => .ok (rows.filter (fun b => inBounds s? e? b.date))

/-- `FinancialDatabase.save_data` (database.py:12-42) in the default
`append` mode: append rows to the symbol's table, creating it first if
absent (no deduplication by date). -/
def saveData : Store → String → List Bar → Store
  | [], t, rows => [(t, rows)]
  | (n, rs) :: rest, t, rows =>
      if n = t then (n, rs ++ rows) :: rest
      else (n, rs) :: saveData rest t rows

/-- The module-level names bound in `database.py` (its imports and its
class): `os`, `pandas as pd`, `create_engine`, `inspect`, `DateTime`,
`Float`, `FinancialDatabase`.  Neither `datetime` nor `timedelta` is
among them — `database.py` has no `import datetime`. -/
def databaseModuleNames : List String :=
  ["os", "pd", "create_engine", "inspect", "DateTime", "Float",
   "FinancialDatabase"]

/-- `FinancialDatabase.clean_old_data` (database.py:76-89).
With `keep_days <= 0` it returns immediately.  Otherwise it evaluates
`cutoff_date = datetime.now() - timedelta(days=keep_days)` — which in
Python first resolves the module-level name `datetime`; since
`database.py` never imports it, this raises `NameError` *before* the
`try` block is entered.  The `try`/`except` further down catches any
failure of the DELETE statement itself (modelled by `execFails`) and
merely logs it. -/
def cleanOldData (db : Store) (t : String) (keepDays : Int) (now : Int)
    (execFails : Bool) : Except PyErr Store :=
  if keepDays ≤ 0 then .ok db
  else if "datetime" ∈ databaseModuleNames then
    -- dead branch in the source as written: the name never resolves
    let cutoff := now - keepDays
    if execFails then .ok db
    else .ok (db.map (fun p =>
      if p.1 = t then
        (p.1, p.2.filter (fun b => ¬ (b.date < cutoff)))
      else p))
  else .error .nameError

/-- Ordered insertion of one row, used to embed `df.sort_index()`. -/
def insertBar (b : Bar) : List Bar → List Bar
  | [] => [b]
  | c :: rest => if b.date ≤ c.date then b :: c :: rest
                 else c :: insertBar b rest

/-- Ascending insertion sort by date, embedding `df.sort_index()`. -/
def sortBars (l : List Bar) : List Bar :=
  l.foldr insertBar []

/-- `TiingoDataFetcher.fetch_data` (datafetch.py:22-60): `remote` is
the outcome of `self.client.get_ticker_price(...)` (rows, or a failure
message).  The whole remote call and result processing sit inside
`try`; the `except` branch prints a diagnostic (rate limit / invalid
token / other) and returns an empty DataFrame, so the function itself
never raises.  On success the rows are sorted ascending by date
(`df.sort_index()`). -/
def fetchData (remote : Except String (List Bar)) :
    Except PyErr (List Bar) :=
  match remote with
  | .ok bars => .ok (sortBars bars)
  | .error _ => .ok []

/-- `FinancialAnalysisTool._get_data_with_cache` (main.py:144-172).
Returns the resulting rows, a flag recording whether the remote
fetcher was invoked, and the updated store; `fetchRes` stands for what
`fetch_data` would return (already exception-free, possibly empty).
A `NameError` escaping `clean_old_data` propagates to the caller. -/
def getDataWithCache (db : Store) (t : String) (startD : Int)
    (endD? : Option Int) (cacheDays : Int) (fetchRes : List Bar)
    (now : Int) (execFails : Bool) :
    Except PyErr (List Bar × Bool × Store) :=
  let fresh : Except PyErr (List Bar × Bool × Store) :=
    if fetchRes.isEmpty then .ok (fetchRes, true, db)
    else
      let db' := saveData db t fetchRes
      if 0 < cacheDays then
        (cleanOldData db' t cacheDays now execFails).map
          (fun db'' => (fetchRes, true, db''))
      else .ok (fetchRes, true, db')
  if tableExists db t = true ∧ 0 < cacheDays then
    match loadData db t (some startD) endD? with
    | .error e => .error e
    | .ok dfc => if dfc.isEmpty then fresh else .ok (dfc, false, db)
  else fresh

/-- A pandas DataFrame as the indicator engine sees it: named float
columns (`FinancialAnalyzer.self.data`). -/
structure DFrame where
  cols : List (String × List ℚ)
deriving DecidableEq

/-- The frame's column names (`self.data.columns`). -/
def DFrame.colNames (d : DFrame) : List String :=
  d.cols.map Prod.fst

/-- Column lookup `self.data[name]`; `none` models the `KeyError`
case. -/
def DFrame.col? (d : DFrame) (name : String) : Option (List ℚ) :=
  d.cols.lookup name

/-- The trailing window `series[t-w+1..t]` that
`rolling(window=w)` aggregates at position `t`. -/
def windowSlice (w : ℕ) (xs : List ℚ) (t : ℕ) : List ℚ :=
  (xs.take (t + 1)).drop (t + 1 - w)

/-- `series.rolling(window=w).mean()` (pandas default
`min_periods = w`): undefined (NaN) for the first `w - 1` positions,
afterwards the arithmetic mean of the trailing `w` samples. -/
def rollingMeanO (w : ℕ) (xs : List ℚ) : List (Option ℚ) :=
  (List.range xs.length).map (fun t =>
    if t + 1 < w then none
    else some ((windowSlice w xs t).sum / (w : ℚ)))

/-- `series.rolling(window=w).std()` squared: the rolling *sample*
variance (denominator `w - 1`, pandas `ddof=1`); undefined for the
first `w - 1` positions and everywhere when `w < 2` (0/0). -/
def rollingVarO (w : ℕ) (xs : List ℚ) : List (Option ℚ) :=
  (List.range xs.length).map (fun t =>
    if t + 1 < w ∨ w < 2 then none
    else
      let m := (windowSlice w xs t).sum / (w : ℚ)
      some (((windowSlice w xs t).map (fun x => (x - m) ^ 2)).sum /
        ((w : ℚ) - 1)))

/-- `FinancialAnalyzer.moving_averages` for one window
(analysis.py:19-24): the `ma_w` column. -/
def movingAverage (w : ℕ) (xs : List ℚ) : List (Option ℚ) :=
  rollingMeanO w xs

/-- IEEE-style extended values produced by the float arithmetic in
`rsi` (division of a rolling mean by a rolling mean that can be 0). -/
inductive EF where
  | fin : ℚ → EF
  | pinf : EF
  | ninf : EF
  | nan : EF
deriving DecidableEq, Repr

/-- IEEE float addition on `EF`. -/
def EF.add : EF → EF → EF
  | nan, _ => nan
  | _, nan => nan
  | fin a, fin b => fin (a + b)
  | fin _, pinf => pinf
  | pinf, fin _ => pinf
  | fin _, ninf => ninf
  | ninf, fin _ => ninf
  | pinf, pinf => pinf
  | ninf, ninf => ninf
  | pinf, ninf => nan
  | ninf, pinf => nan

/-- IEEE float negation on `EF`. -/
def EF.neg : EF → EF
  | nan => nan
  | fin a => fin (-a)
  | pinf => ninf
  | ninf => pinf

/-- IEEE float subtraction on `EF`. -/
def EF.sub (a b : EF) : EF := a.add b.neg

/-- IEEE float division on `EF` (finite/0 gives a signed infinity or,
for 0/0, NaN; finite/∞ gives 0). -/
def EF.div : EF → EF → EF
  | nan, _ => nan
  | _, nan => nan
  | fin a, fin b =>
      if b ≠ 0 then fin (a / b)
      else if 0 < a then pinf
      else if a < 0 then ninf
      else nan
  | fin _, pinf => fin 0
  | fin _, ninf => fin 0
  | pinf, fin b => if 0 ≤ b then pinf else ninf
  | ninf, fin b => if 0 ≤ b then ninf else pinf
  | pinf, pinf => nan
  | pinf, ninf => nan
  | ninf, pinf => nan
  | ninf, ninf => nan

/-- `delta.where(delta > 0, 0)` on `delta = series.diff()`
(analysis.py:70-71): position 0 holds NaN in `delta`, the where-
condition is false there, so the gain at position 0 is 0. -/
def gains (xs : List ℚ) : List ℚ :=
  (List.range xs.length).map (fun t =>
    match t with
    | 0 => 0
    | t' + 1 =>
        if 0 < xs.getD (t' + 1) 0 - xs.getD t' 0
        then xs.getD (t' + 1) 0 - xs.getD t' 0 else 0)

/-- `-delta.where(delta < 0, 0)` (analysis.py:72). -/
def losses (xs : List ℚ) : List ℚ :=
  (List.range xs.length).map (fun t =>
    match t with
    | 0 => 0
    | t' + 1 =>
        if xs.getD (t' + 1) 0 - xs.getD t' 0 < 0
        then -(xs.getD (t' + 1) 0 - xs.getD t' 0) else 0)

/-- The arithmetic tail of `FinancialAnalyzer.rsi`
(analysis.py:77-78): `rs = avg_gain / avg_loss;
rsi = 100 - 100 / (1 + rs)` in float arithmetic. -/
def rsiVal (g l : ℚ) : EF :=
  EF.sub (EF.fin 100)
    (EF.div (EF.fin 100) (EF.add (EF.fin 1) (EF.div (EF.fin g) (EF.fin l))))

/-- `FinancialAnalyzer.rsi` (analysis.py:68-78) on the `adjClose`
column: `none` where the rolling means are still undefined, otherwise
the float value of `100 - 100/(1 + avg_gain/avg_loss)`. -/
def rsiList (w : ℕ) (xs : List ℚ) : List (Option EF) :=
  (List.range xs.length).map (fun t =>
    match (rollingMeanO w (gains xs)).getD t none,
          (rollingMeanO w (losses xs)).getD t none with
    | some g, some l => some (rsiVal g l)
    | _, _ => none)

/-- The running numerator/denominator with which pandas computes
`series.ewm(span=s).mean()` under its defaults (`adjust=True`,
`min_periods=0`): `num_t = (1-α)·num_{t-1} + x_t`,
`den_t = (1-α)·den_{t-1} + 1`, output `num_t / den_t`. -/
def ewmAux (α : ℚ) : List ℚ → ℚ → ℚ → List ℚ
  | [], _, _ => []
  | x :: rest, num, den =>
      let num' := (1 - α) * num + x
      let den' := (1 - α) * den + 1
      num' / den' :: ewmAux α rest num' den'

/-- `series.ewm(span=s).mean()` with pandas defaults. -/
def ewm (α : ℚ) (xs : List ℚ) : List ℚ :=
  ewmAux α xs 0 0

/-- `FinancialAnalyzer.macd` (analysis.py:80-86): the two EWMs of
`adjClose` with `α = 2/(span+1)`, their difference, and the signal
line as the EWM of the difference. -/
def macd (xs : List ℚ) (fast slow signal : ℕ) : List ℚ × List ℚ :=
  (List.zipWith (fun a b => a - b) (ewm (2 / ((fast : ℚ) + 1)) xs)
     (ewm (2 / ((slow : ℚ) + 1)) xs),
   ewm (2 / ((signal : ℚ) + 1))
     (List.zipWith (fun a b => a - b) (ewm (2 / ((fast : ℚ) + 1)) xs)
        (ewm (2 / ((slow : ℚ) + 1)) xs)))

/-- Modelled from the spec: the claim's reading of `emaFast`/`emaSlow`
as the textbook *recursive* EWMA with smoothing factor `α = 2/(span+1)`
whose first value seeds from the first observation:
`y_0 = x_0`, `y_t = (1-α)·y_{t-1} + α·x_t`.  Stated only to be compared
with the source's `ewm` (pandas `adjust=True`). -/
def emaRecSpec (α : ℚ) (xs : List ℚ) : List ℚ :=
  match xs with
  | [] => []
  | x :: rest => x :: go α x rest
where
  /-- the recursion `y_t = (1-α)·y_{t-1} + α·x_t`. -/
  go (α y : ℚ) : List ℚ → List ℚ
  | [] => []
  | x :: rest => ((1 - α) * y + α * x) :: go α ((1 - α) * y + α * x) rest

/-- The weighted-sum form of pandas `ewm(...).mean()` with
`adjust=True` as documented:
`y_t = (Σ_{i≤t} (1-α)^i x_{t-i}) / (Σ_{i≤t} (1-α)^i)`. -/
def ewmWeighted (α : ℚ) (xs : List ℚ) (t : ℕ) : ℚ :=
  (∑ i in Finset.range (t + 1), (1 - α) ^ i * xs.getD (t - i) 0) /
  (∑ i in Finset.range (t + 1), (1 - α) ^ i)

/-- `close.shift(1)` (analysis.py:151-152): NaN in front, values moved
one position later, last value dropped. -/
def shiftOne (xs : List ℚ) : List (Option ℚ) :=
  none :: (xs.dropLast.map some)

/-- The true range series of `FinancialAnalyzer.atr`
(analysis.py:149-155): `tr1 = high - low`,
`tr2 = |high - close.shift(1)|`, `tr3 = |low - close.shift(1)|`, and
the row-wise `max(axis=1)` which *skips* NaN entries — so at position 0
only `tr1` participates. -/
def trueRange (h l c : List ℚ) : List ℚ :=
  (List.range h.length).map (fun t =>
    let hv := h.getD t 0
    let lv := l.getD t 0
    match (shiftOne c).getD t none with
    | none => hv - lv
    | some pc => max (hv - lv) (max |hv - pc| |lv - pc|))

/-- `FinancialAnalyzer.atr` (analysis.py:139-158): checks
`{'high','low','adjClose'}.issubset(columns)` and raises the explicit
`ValueError` otherwise; then the rolling mean of the true range. -/
def atr (d : DFrame) (w : ℕ) : Except PyErr (List (Option ℚ)) :=
  if "high" ∈ d.colNames ∧ "low" ∈ d.colNames ∧ "adjClose" ∈ d.colNames
  then
    .ok (rollingMeanO w (trueRange ((d.col? "high").getD [])
      ((d.col? "low").getD []) ((d.col? "adjClose").getD [])))
  else .error .missingColumn

/-- `adjClose.pct_change()` past position 0:
`(x_t - x_{t-1}) / x_{t-1}` for consecutive pairs. -/
def pctTail (xs : List ℚ) : List ℚ :=
  List.zipWith (fun prev cur => (cur - prev) / prev) xs xs.tail

/-- `adjClose.pct_change()` (analysis.py:15): NaN at position 0,
then the relative change of each consecutive pair. -/
def dailyList (xs : List ℚ) : List (Option ℚ) :=
  match xs with
  | [] => []
  | _ :: _ => none :: (pctTail xs).map some

/-- `series.cumprod()` with the pandas default `skipna=True`: NaN
entries stay NaN and do not poison the running product. -/
def cumprodSkip (acc : ℚ) : List (Option ℚ) → List (Option ℚ)
  | [] => []
  | none :: rest => none :: cumprodSkip acc rest
  | some v :: rest => some (acc * v) :: cumprodSkip (acc * v) rest

/-- `(1 + returns['daily']).cumprod()` (analysis.py:16). -/
def cumulativeList (xs : List ℚ) : List (Option ℚ) :=
  cumprodSkip 1 ((dailyList xs).map (Option.map (fun d => 1 + d)))

/-- `FinancialAnalyzer.calculate_returns` (analysis.py:9-17): explicit
column check raising `ValueError`, then the `daily` and `cumulative`
columns. -/
def calculateReturns (d : DFrame) :
    Except PyErr (List (Option ℚ) × List (Option ℚ)) :=
  if "adjClose" ∈ d.colNames then
    let xs := (d.col? "adjClose").getD []
    .ok (dailyList xs, cumulativeList xs)
  else .error .missingColumn

/-- `FinancialAnalyzer.rsi` at the DataFrame level: the unchecked
lookup `self.data['adjClose']` raises `KeyError` when the column is
absent. -/
def rsiDF (d : DFrame) (w : ℕ) : Except PyErr (List (Option EF)) :=
  match d.col? "adjClose" with
  | none => .error .keyError
  | some xs => .ok (rsiList w xs)

/-- `FinancialAnalyzer.macd` at the DataFrame level: the unchecked
lookup `self.data['adjClose']` raises `KeyError` when the column is
absent. -/
def macdDF (d : DFrame) (fast slow signal : ℕ) :
    Except PyErr (List ℚ × List ℚ) :=
  match d.col? "adjClose" with
  | none => .error .keyError
  | some xs => .ok (macd xs fast slow signal)

/-- The rolling sample standard deviation
`series.rolling(w).std()` as a real number: the square root of the
rolling sample variance. -/
noncomputable def rollingStdO (w : ℕ) (xs : List ℚ) (t : ℕ) :
    Option ℝ :=
  ((rollingVarO w xs).getD t none).map (fun v => Real.sqrt (v : ℝ))

/-- The `middle` band of `FinancialAnalyzer.bollinger_bands`
(analysis.py:132,136): the rolling mean. -/
def bollMiddle (w : ℕ) (xs : List ℚ) (t : ℕ) : Option ℚ :=
  (rollingMeanO w xs).getD t none

/-- The `upper` band (analysis.py:135):
`rolling_mean + rolling_std * num_std`; NaN (here `none`) as soon as
either operand is. -/
noncomputable def bollUpper (w : ℕ) (k : ℚ) (xs : List ℚ) (t : ℕ) :
    Option ℝ :=
  match bollMiddle w xs t, rollingStdO w xs t with
  | some m, some s => some ((m : ℝ) + s * (k : ℝ))
  | _, _ => none

/-- The `lower` band (analysis.py:137):
`rolling_mean - rolling_std * num_std`. -/
noncomputable def bollLower (w : ℕ) (k : ℚ) (xs : List ℚ) (t : ℕ) :
    Option ℝ :=
  match bollMiddle w xs t, rollingStdO w xs t with
  | some m, some s => some ((m : ℝ) - s * (k : ℝ))
  | _, _ => none

/-- `FinancialAnalyzer.bollinger_bands` at the DataFrame level: the
unchecked lookup raises `KeyError` when `adjClose` is absent;
otherwise the three bands at every index. -/
noncomputable def bollingerDF (d : DFrame) (w : ℕ) (k : ℚ) :
    Except PyErr ((ℕ → Option ℝ) × (ℕ → Option ℚ) × (ℕ → Option ℝ)) :=
  match d.col? "adjClose" with
  | none => .error .keyError
  | some xs => .ok (bollUpper w k xs, bollMiddle w xs, bollLower w k xs)

/-- Pointwise subtraction of optional values (NaN-propagating
`upper - lower`). -/
def osub : Option ℝ → Option ℝ → Option ℝ
  | some a, some b => some (a - b)
  | _, _ => none

/-- The simple moving average value at a defined position: arithmetic
mean of the trailing `w` samples. -/
def smaAt (w : ℕ) (xs : List ℚ) (t : ℕ) : ℚ :=
  (windowSlice w xs t).sum / (w : ℚ)

/-! ## Helper lemmas -/

theorem lookup_eq_none_of_not_mem {β : Type} {l : List (String × β)}
    {a : String} (h : a ∉ l.map Prod.fst) : l.lookup a = none := by
  induction l with
  | nil => rfl
  | cons p rest ih =>
      obtain ⟨k, b⟩ := p
      simp only [List.map_cons, List.mem_cons] at h
      push_neg at h
      have hk : (a == k) = false := beq_eq_false_iff_ne.mpr h.1
      simp only [List.lookup, hk]
      exact ih h.2

theorem mem_of_lookup_eq_some {β : Type} {l : List (String × β)}
    {a : String} {b : β} (h : l.lookup a = some b) :
    a ∈ l.map Prod.fst := by
  induction l with
  | nil => simp [List.lookup] at h
  | cons p rest ih =>
      obtain ⟨k, v⟩ := p
      by_cases hk : a = k
      · simp [hk]
      · have hb : (a == k) = false := beq_eq_false_iff_ne.mpr hk
        simp only [List.lookup, hb] at h
        simp only [List.map_cons, List.mem_cons]
        exact Or.inr (ih h)

/-! ## C1 — coarse cache-hit policy -/

/-- C1: the claim — any stored row for the symbol plus
`keepDays > 0` means `resolve` returns the stored rows and never
invokes the fetcher — is false: with a stored row at date 100 and a
requested range starting at 200, the range-filtered load comes back
empty and the remote fetcher *is* invoked (third component `true`),
and the stored row is not returned. -/
theorem C1_counterexample :
    ([("X", [⟨100⟩])] : Store).lookup "X" = some [⟨100⟩] ∧
    (0 : Int) < 30 ∧
    getDataWithCache [("X", [⟨100⟩])] "X" 200 none 30 [] 1000 false =
      Except.ok ([], true, [("X", [⟨100⟩])]) := by
  refine ⟨by decide, by decide, by decide⟩

/-- C1 (amended): if the store holds at least one row for the symbol
*that satisfies the requested inclusive bounds* and `keepDays > 0`,
then `resolve` returns exactly the stored rows satisfying the bounds
and never invokes the remote fetcher — even when those rows do not
cover the whole requested range. -/
theorem C1_coarse_hit (db : Store) (t : String) (s : Int)
    (e? : Option Int) (days : Int) (fetchRes : List Bar) (now : Int)
    (ef : Bool) (rows : List Bar) (hl : db.lookup t = some rows)
    (hne : rows.filter (fun b => inBounds (some s) e? b.date) ≠ [])
    (hd : 0 < days) :
    getDataWithCache db t s e? days fetchRes now ef =
      Except.ok (rows.filter (fun b => inBounds (some s) e? b.date),
        false, db) := by
  have hex : tableExists db t = true := by
    simp [tableExists, hl]
  unfold getDataWithCache
  rw [if_pos ⟨hex, hd⟩]
  simp only [loadData, hl]
  simp [List.isEmpty_iff, hne]

/-- Witness for C1 (amended): store rows at dates 100 and 250,
request `[200, ∞)` — the row at 250 satisfies the bounds, so the hit
returns it alone without fetching. -/
theorem C1_coarse_hit_witness :
    getDataWithCache [("X", [⟨100⟩, ⟨250⟩])] "X" 200 none 30 [] 1000
      false =
      Except.ok ([⟨250⟩], false, [("X", [⟨100⟩, ⟨250⟩])]) := by
  rw [C1_coarse_hit [("X", [⟨100⟩, ⟨250⟩])] "X" 200 none 30 [] 1000
    false [⟨100⟩, ⟨250⟩] (by decide) (by decide) (by decide)]
  decide

/-! ## C2 — fetch boundary absorbs failures -/

/-- C2: whatever the outcome of the remote call, the fetch boundary
never propagates an exception: a failed remote call (rate limit,
invalid credential, network error — any message) yields the empty
sequence, and every input yields a normal return. -/
theorem C2_fetch_absorbs :
    (∀ msg : String, fetchData (Except.error msg) = Except.ok []) ∧
    (∀ remote : Except String (List Bar),
      ∃ out : List Bar, fetchData remote = Except.ok out) := by
  constructor
  · intro msg; rfl
  · intro remote
    cases remote with
    | ok bars => exact ⟨sortBars bars, rfl⟩
    | error msg => exact ⟨[], rfl⟩

/-! ## C3 — pruning failure handling -/

/-- C3: the claim is what the code *intends* (its own `try`/`except`
says so), but the code is wrong: `database.py` never imports
`datetime`, so every `clean_old_data` call with `keep_days > 0`
raises `NameError` before reaching the `try` block, and the failure
propagates to the caller instead of being caught and logged. -/
theorem C3_prune_raises (db : Store) (t : String) (keepDays now : Int)
    (ef : Bool) (h : 0 < keepDays) :
    cleanOldData db t keepDays now ef = Except.error PyErr.nameError := by
  unfold cleanOldData
  rw [if_neg (by omega), if_neg (by decide)]

/-- Witness for C3: the concrete call `clean_old_data("AAPL", 30)`
raises instead of returning normally. -/
theorem C3_prune_raises_witness :
    (0 : Int) < 30 ∧
    cleanOldData [("AAPL", [⟨0⟩])] "AAPL" 30 1000 false =
      Except.error PyErr.nameError :=
  ⟨by decide, C3_prune_raises [("AAPL", [⟨0⟩])] "AAPL" 30 1000 false
    (by decide)⟩

/-! ## C4 — load semantics -/

/-- C4: the claim — `load` returns an empty sequence rather than
failing when the symbol is unknown — is false: `SELECT * FROM XYZ` on
a store with no table `XYZ` raises an SQL error. -/
theorem C4_counterexample :
    loadData ([] : Store) "XYZ" none none =
      Except.error PyErr.operationalError ∧
    loadData ([] : Store) "XYZ" none none ≠ Except.ok [] := by
  exact ⟨by decide, by decide⟩

/-- C4 (amended): when the symbol's table exists, `load` returns — in
stored order, without failing — exactly the rows satisfying the
inclusive bounds; in particular it returns the empty sequence (rather
than failing) when no stored row satisfies the bounds, and the result
is ascending by timestamp whenever the stored rows are (the query has
no ORDER BY, so the store itself does not sort).  When the table does
not exist, `load` fails; callers guard with `table_exists`. -/
theorem C4_load (db : Store) (t : String) (s? e? : Option Int)
    (rows : List Bar) (hl : db.lookup t = some rows) :
    loadData db t s? e? =
      Except.ok (rows.filter (fun b => inBounds s? e? b.date)) ∧
    (∀ b : Bar, b ∈ rows.filter (fun b => inBounds s? e? b.date) ↔
      b ∈ rows ∧ inBounds s? e? b.date = true) ∧
    ((∀ b ∈ rows, inBounds s? e? b.date = false) →
      loadData db t s? e? = Except.ok []) ∧
    (rows.Pairwise (fun a b => a.date ≤ b.date) →
      (rows.filter (fun b => inBounds s? e? b.date)).Pairwise
        (fun a b => a.date ≤ b.date)) := by
  refine ⟨by simp [loadData, hl], ?_, ?_, ?_⟩
  · intro b; simp [List.mem_filter]
  · intro hall
    have : rows.filter (fun b => inBounds s? e? b.date) = [] := by
      rw [List.filter_eq_nil_iff]
      intro b hb
      simp [hall b hb]
    simp [loadData, hl, this]
  · intro hp
    exact hp.sublist (List.filter_sublist _)

/-- Witness for C4 (amended): rows at dates 1, 5, 9 with bounds
`[2, 9]` — the result keeps 5 and 9, in order, inclusively. -/
theorem C4_load_witness :
    loadData [("X", [⟨1⟩, ⟨5⟩, ⟨9⟩])] "X" (some 2) (some 9) =
      Except.ok [⟨5⟩, ⟨9⟩] := by
  rw [(C4_load [("X", [⟨1⟩, ⟨5⟩, ⟨9⟩])] "X" (some 2) (some 9)
    [⟨1⟩, ⟨5⟩, ⟨9⟩] (by decide)).1]
  decide

/-! ## C10 — unchecked column lookups -/

/-- C10: on a frame without `adjClose`, `rsi`, `macd` and
`bollinger_bands` fail with the unchecked lookup's `KeyError` (for any
window/span parameters), while `calculate_returns` and `atr` — which
do check their preconditions — raise the explicit
`ValueError`/`MissingColumnError` instead. -/
theorem C10_unchecked_lookup (d : DFrame)
    (h : "adjClose" ∉ d.colNames) (w fast slow signal wATR : ℕ)
    (k : ℚ) :
    rsiDF d w = Except.error PyErr.keyError ∧
    macdDF d fast slow signal = Except.error PyErr.keyError ∧
    bollingerDF d w k = Except.error PyErr.keyError ∧
    calculateReturns d = Except.error PyErr.missingColumn ∧
    atr d wATR = Except.error PyErr.missingColumn := by
  have hn : d.cols.lookup "adjClose" = none :=
    lookup_eq_none_of_not_mem h
  refine ⟨?_, ?_, ?_, ?_, ?_⟩
  · simp [rsiDF, DFrame.col?, hn]
  · simp [macdDF, DFrame.col?, hn]
  · simp [bollingerDF, DFrame.col?, hn]
  · simp [calculateReturns, h]
  · have : ¬ ("high" ∈ d.colNames ∧ "low" ∈ d.colNames ∧
        "adjClose" ∈ d.colNames) := by
      intro hc; exact h hc.2.2
    simp [atr, this]

/-- Witness for C10: a frame holding only a `volume` column. -/
theorem C10_unchecked_lookup_witness :
    "adjClose" ∉ (DFrame.mk [("volume", [1, 2])]).colNames ∧
    rsiDF ⟨[("volume", [1, 2])]⟩ 14 = Except.error PyErr.keyError ∧
    macdDF ⟨[("volume", [1, 2])]⟩ 12 26 9 =
      Except.error PyErr.keyError ∧
    calculateReturns ⟨[("volume", [1, 2])]⟩ =
      Except.error PyErr.missingColumn ∧
    atr ⟨[("volume", [1, 2])]⟩ 14 = Except.error PyErr.missingColumn := by
  have h := C10_unchecked_lookup ⟨[("volume", [1, 2])]⟩ (by decide)
    14 12 26 9 14 2
  exact ⟨by decide, h.1, h.2.1, h.2.2.2.1, h.2.2.2.2⟩

/-! ## Rolling-window helper lemmas -/

theorem getD_range_map {α : Type} (f : ℕ → α) (n t : ℕ) (d : α)
    (h : t < n) : ((List.range n).map f).getD t d = f t := by
  rw [List.getD_eq_getElem?_getD, List.getElem?_map,
    List.getElem?_range h]
  rfl

theorem length_range_map {α : Type} (f : ℕ → α) (n : ℕ) :
    ((List.range n).map f).length = n := by
  simp

theorem windowSlice_length (w : ℕ) (xs : List ℚ) (t : ℕ)
    (ht : t < xs.length) (hw : w ≤ t + 1) :
    (windowSlice w xs t).length = w := by
  unfold windowSlice
  rw [List.length_drop, List.length_take]
  omega

theorem mem_of_mem_windowSlice {w : ℕ} {xs : List ℚ} {t : ℕ} {y : ℚ}
    (h : y ∈ windowSlice w xs t) : y ∈ xs := by
  unfold windowSlice at h
  exact List.mem_of_mem_take (List.mem_of_mem_drop h)

theorem windowSlice_getElem (w : ℕ) (xs : List ℚ) (t i : ℕ)
    (ht : t < xs.length) (hw : w ≤ t + 1) (hi : i < w) :
    (windowSlice w xs t).getD i 0 = xs.getD (t + 1 - w + i) 0 := by
  have hlen : (windowSlice w xs t).length = w :=
    windowSlice_length w xs t ht hw
  have hi' : i < (windowSlice w xs t).length := by omega
  have hidx : t + 1 - w + i < xs.length := by omega
  rw [List.getD_eq_getElem?_getD, List.getElem?_eq_getElem hi',
    List.getD_eq_getElem?_getD, List.getElem?_eq_getElem hidx]
  simp only [Option.getD_some]
  unfold windowSlice
  rw [List.getElem_drop, List.getElem_take]

theorem getD_last_mem_windowSlice (w : ℕ) (xs : List ℚ) (t : ℕ)
    (ht : t < xs.length) (hw : 1 ≤ w) (hw' : w ≤ t + 1) :
    xs.getD t 0 ∈ windowSlice w xs t := by
  have h := windowSlice_getElem w xs t (w - 1) ht hw' (by omega)
  have hidx : t + 1 - w + (w - 1) = t := by omega
  rw [hidx] at h
  have hlen : (windowSlice w xs t).length = w :=
    windowSlice_length w xs t ht hw'
  have hmem : (windowSlice w xs t).getD (w - 1) 0 ∈ windowSlice w xs t := by
    have : w - 1 < (windowSlice w xs t).length := by omega
    rw [List.getD_eq_getElem?_getD, List.getElem?_eq_getElem this]
    exact List.getElem_mem this
  rwa [h] at hmem

theorem rollingMeanO_length (w : ℕ) (xs : List ℚ) :
    (rollingMeanO w xs).length = xs.length := by
  simp [rollingMeanO]

theorem rollingMeanO_getD_of_le (w : ℕ) (xs : List ℚ) (t : ℕ)
    (ht : t < xs.length) (hw : w ≤ t + 1) :
    (rollingMeanO w xs).getD t none =
      some ((windowSlice w xs t).sum / (w : ℚ)) := by
  unfold rollingMeanO
  rw [getD_range_map _ _ _ _ ht, if_neg (by omega)]

/-! ## C5 — RSI on zero-average-loss series -/

theorem gains_length (xs : List ℚ) : (gains xs).length = xs.length := by
  simp [gains]

theorem losses_length (xs : List ℚ) :
    (losses xs).length = xs.length := by
  simp [losses]

theorem chain'_getD_lt {xs : List ℚ}
    (hc : List.Chain' (fun a b => a < b) xs) {i : ℕ}
    (h : i + 1 < xs.length) : xs.getD i 0 < xs.getD (i + 1) 0 := by
  have hg := List.chain'_iff_get.mp hc i (by omega)
  have e1 : xs.getD i 0 = xs.get ⟨i, by omega⟩ := by
    rw [List.getD_eq_getElem?_getD, List.getElem?_eq_getElem (by omega)]
    rfl
  have e2 : xs.getD (i + 1) 0 = xs.get ⟨i + 1, h⟩ := by
    rw [List.getD_eq_getElem?_getD, List.getElem?_eq_getElem h]
    rfl
  rw [e1, e2]
  exact hg

theorem gains_nonneg {xs : List ℚ} {y : ℚ} (hy : y ∈ gains xs) :
    0 ≤ y := by
  unfold gains at hy
  obtain ⟨t, -, rfl⟩ := List.mem_map.mp hy
  match t with
  | 0 => exact le_refl 0
  | t' + 1 =>
      simp only
      split
      · linarith
      · exact le_refl 0

theorem losses_eq_zero {xs : List ℚ}
    (hc : List.Chain' (fun a b => a < b) xs) {y : ℚ}
    (hy : y ∈ losses xs) : y = 0 := by
  unfold losses at hy
  obtain ⟨t, htm, rfl⟩ := List.mem_map.mp hy
  have htl : t < xs.length := List.mem_range.mp htm
  match t, htl with
  | 0, _ => rfl
  | t' + 1, htl =>
      have hlt := chain'_getD_lt hc (i := t') htl
      simp only
      rw [if_neg (by linarith)]

theorem gains_getD_pos {xs : List ℚ}
    (hc : List.Chain' (fun a b => a < b) xs) {t : ℕ}
    (h1 : 1 ≤ t) (h2 : t < xs.length) : 0 < (gains xs).getD t 0 := by
  unfold gains
  rw [getD_range_map _ _ _ _ h2]
  match t, h1, h2 with
  | t' + 1, _, h2 =>
      have hlt := chain'_getD_lt hc (i := t') h2
      simp only
      rw [if_pos (by linarith)]
      linarith

/-- The float tail of `rsi` at a position where the rolling average
loss is exactly 0 and the rolling average gain is positive:
`rs = avgGain/0 = +∞`, `100/(1+∞) = 0`, `100 - 0 = 100` — exactly
100, not NaN and not an infinity. -/
theorem rsiVal_pos_zero {g : ℚ} (hg : 0 < g) :
    rsiVal g 0 = EF.fin 100 := by
  have h1 : EF.div (EF.fin g) (EF.fin 0) = EF.pinf := by
    simp [EF.div, hg]
  have h2 : EF.add (EF.fin 1) EF.pinf = EF.pinf := by
    simp [EF.add]
  have h3 : EF.div (EF.fin 100) EF.pinf = EF.fin 0 := by
    simp [EF.div]
  rw [rsiVal, h1, h2, h3]
  show EF.add (EF.fin 100) (EF.neg (EF.fin 0)) = EF.fin 100
  simp [EF.add, EF.neg]

/-- C5: the claim quantifies over *every* series whose rolling average
loss is zero; it fails when the rolling average gain is zero too.  On
the constant series `[5,5,5]` with window 2, the average loss at the
defined position 1 is 0 (so the claim applies), yet the code computes
`rs = 0/0 = NaN` and `rsi = NaN`, not 100. -/
theorem C5_counterexample :
    (rollingMeanO 2 (losses [5, 5, 5])).getD 1 none = some 0 ∧
    (rsiList 2 [5, 5, 5]).getD 1 none = some EF.nan ∧
    some EF.nan ≠ some (EF.fin 100) := by
  refine ⟨?_, ?_, by simp⟩
  · norm_num [rollingMeanO, losses, windowSlice, List.range_succ,
      getD_range_map]
  · norm_num [rsiList, rollingMeanO, losses, gains, windowSlice,
      List.range_succ, getD_range_map, rsiVal, EF.div, EF.add, EF.sub,
      EF.neg]

/-- C5 (amended): for every *strictly increasing* series and window
`w ≥ 2` — so that each defined window has zero average loss and
strictly positive average gain — `rsi` yields exactly 100 at every
defined position: never NaN and never an infinity.  (When gains and
losses are both all-zero over a window, as on a constant series, the
code instead produces `0/0 = NaN`.) -/
theorem C5_rsi_increasing (w : ℕ) (xs : List ℚ) (hw : 2 ≤ w)
    (hc : List.Chain' (fun a b => a < b) xs) (t : ℕ)
    (ht1 : w ≤ t + 1) (ht2 : t < xs.length) :
    (rsiList w xs).getD t none = some (EF.fin 100) := by
  have hgl : t < (gains xs).length := by rw [gains_length]; exact ht2
  have hll : t < (losses xs).length := by rw [losses_length]; exact ht2
  have hag : (rollingMeanO w (gains xs)).getD t none =
      some ((windowSlice w (gains xs) t).sum / (w : ℚ)) :=
    rollingMeanO_getD_of_le w (gains xs) t hgl ht1
  have hsum0 : (windowSlice w (losses xs) t).sum = 0 := by
    apply List.sum_eq_zero
    intro y hy
    exact losses_eq_zero hc (mem_of_mem_windowSlice hy)
  have hal : (rollingMeanO w (losses xs)).getD t none = some 0 := by
    rw [rollingMeanO_getD_of_le w (losses xs) t hll ht1, hsum0,
      zero_div]
  have hgain_pos : 0 < (windowSlice w (gains xs) t).sum := by
    have hmem : (gains xs).getD t 0 ∈ windowSlice w (gains xs) t :=
      getD_last_mem_windowSlice w (gains xs) t hgl (by omega) ht1
    have hnn : ∀ y ∈ windowSlice w (gains xs) t, 0 ≤ y := fun y hy =>
      gains_nonneg (mem_of_mem_windowSlice hy)
    have hle := List.single_le_sum hnn _ hmem
    have hpos := gains_getD_pos hc (t := t) (by omega) ht2
    linarith
  have hg : 0 < (windowSlice w (gains xs) t).sum / (w : ℚ) := by
    apply div_pos hgain_pos
    exact_mod_cast Nat.cast_pos.mpr (by omega : 0 < w)
  unfold rsiList
  rw [getD_range_map _ _ _ _ ht2, hag, hal]
  exact congrArg some (rsiVal_pos_zero hg)

/-- Witness for C5 (amended): the strictly increasing series
`[1, 2, 3]` with window 2 at the first defined position. -/
theorem C5_rsi_increasing_witness :
    (rsiList 2 [1, 2, 3]).getD 1 none = some (EF.fin 100) :=
  C5_rsi_increasing 2 [1, 2, 3] (by norm_num)
    (by constructor <;> norm_num) 1 (by norm_num) (by norm_num)

/-! ## C6 — daily and cumulative returns -/

theorem getD_map_some {α : Type} (l : List α) (j : ℕ)
    (h : j < l.length) (d0 : α) :
    (l.map some).getD j none = some (l.getD j d0) := by
  rw [List.getD_eq_getElem?_getD, List.getElem?_map,
    List.getElem?_eq_getElem h, List.getD_eq_getElem?_getD,
    List.getElem?_eq_getElem h]
  rfl

theorem pctTail_cons₂ (a b : ℚ) (r : List ℚ) :
    pctTail (a :: b :: r) = ((b - a) / a) :: pctTail (b :: r) := rfl

theorem pctTail_length (xs : List ℚ) :
    (pctTail xs).length = xs.length - 1 := by
  unfold pctTail
  rw [List.length_zipWith, List.length_tail]
  omega

theorem pctTail_getD (xs : List ℚ) (j : ℕ) (h : j + 1 < xs.length) :
    (pctTail xs).getD j 0 =
      (xs.getD (j + 1) 0 - xs.getD j 0) / xs.getD j 0 := by
  induction xs generalizing j with
  | nil => simp at h
  | cons a rest ih =>
      cases rest with
      | nil => simp at h
      | cons b r =>
          cases j with
          | zero => simp [pctTail_cons₂]
          | succ j' =>
              rw [pctTail_cons₂]
              simp only [List.getD_cons_succ]
              exact ih j' (by simpa using h)

theorem cumprodSkip_map_some_getD (l : List ℚ) (acc : ℚ) (k : ℕ)
    (hk : k < l.length) :
    (cumprodSkip acc (l.map some)).getD k none =
      some (acc * ∏ j in Finset.range (k + 1), l.getD j 1) := by
  induction l generalizing acc k with
  | nil => simp at hk
  | cons v rest ih =>
      cases k with
      | zero => simp [cumprodSkip]
      | succ k' =>
          simp only [List.map_cons, cumprodSkip, List.getD_cons_succ]
          rw [ih (acc * v) k' (by simpa using hk)]
          congr 1
          conv_rhs => rw [Finset.prod_range_succ']
          simp only [List.getD_cons_succ, List.getD_cons_zero]
          ring

theorem prod_one_add_pctTail (xs : List ℚ) (i : ℕ) (h2 : i < xs.length)
    (hnz : ∀ j, j < xs.length → xs.getD j 0 ≠ 0) :
    ∏ j in Finset.range i, (1 + (pctTail xs).getD j 0) =
      xs.getD i 0 / xs.getD 0 0 := by
  induction i with
  | zero =>
      rw [Finset.prod_range_zero]
      exact (div_self (hnz 0 (by omega))).symm
  | succ i' ih =>
      have hi' := hnz i' (by omega)
      have h0 := hnz 0 (by omega)
      rw [Finset.prod_range_succ, ih (by omega),
        pctTail_getD xs i' (by omega)]
      have key : ∀ a b : ℚ, b ≠ 0 → (1 : ℚ) + (a - b) / b = a / b := by
        intro a b hb
        field_simp
      rw [key _ _ hi', div_mul_div_comm,
        mul_comm (xs.getD 0 0) (xs.getD i' 0),
        mul_div_mul_left _ _ hi']

theorem getD_map_add_one (l : List ℚ) (j : ℕ) (h : j < l.length) :
    (l.map (fun d => 1 + d)).getD j 1 = 1 + l.getD j 0 := by
  rw [List.getD_eq_getElem?_getD, List.getElem?_map,
    List.getElem?_eq_getElem h, List.getD_eq_getElem?_getD,
    List.getElem?_eq_getElem h]
  rfl

theorem cumulativeList_cons (a : ℚ) (rest : List ℚ) :
    cumulativeList (a :: rest) =
      none :: cumprodSkip 1
        (((pctTail (a :: rest)).map (fun d => 1 + d)).map some) := by
  simp [cumulativeList, dailyList, cumprodSkip, List.map_map,
    Function.comp]

theorem dailyList_getD_zero (xs : List ℚ) (h : 0 < xs.length) :
    (dailyList xs).getD 0 none = none := by
  cases xs with
  | nil => simp at h
  | cons a rest => rfl

theorem dailyList_getD_succ (xs : List ℚ) (i : ℕ) (h1 : 1 ≤ i)
    (h2 : i < xs.length) :
    (dailyList xs).getD i none = some ((pctTail xs).getD (i - 1) 0) := by
  cases xs with
  | nil => simp at h2
  | cons a rest =>
      match i, h1 with
      | i' + 1, _ =>
          show (none :: (pctTail (a :: rest)).map some).getD (i' + 1)
              none = _
          rw [List.getD_cons_succ]
          have hl : i' < (pctTail (a :: rest)).length := by
            rw [pctTail_length]
            simp only [List.length_cons] at h2 ⊢
            omega
          simpa using getD_map_some _ i' hl 0

theorem cumulativeList_getD (xs : List ℚ) (i : ℕ) (h1 : 1 ≤ i)
    (h2 : i < xs.length) :
    (cumulativeList xs).getD i none =
      some (∏ j in Finset.range i, (1 + (pctTail xs).getD j 0)) := by
  cases xs with
  | nil => simp at h2
  | cons a rest =>
      rw [cumulativeList_cons]
      match i, h1 with
      | i' + 1, _ =>
          rw [List.getD_cons_succ]
          have hlen : i' <
              ((pctTail (a :: rest)).map (fun d => 1 + d)).length := by
            rw [List.length_map, pctTail_length]
            simp only [List.length_cons] at h2 ⊢
            omega
          rw [cumprodSkip_map_some_getD _ 1 i' hlen, one_mul]
          congr 1
          apply Finset.prod_congr rfl
          intro j hj
          have hjr := Finset.mem_range.mp hj
          have hj' : j < (pctTail (a :: rest)).length := by
            rw [pctTail_length]
            simp only [List.length_cons] at h2 ⊢
            omega
          exact getD_map_add_one _ j hj'

/-- C6: `returns()` computes exactly the claimed values: `daily[0]` is
undefined, `daily[i] = adjClose[i]/adjClose[i-1] - 1` for `i > 0`,
`cumulative[i] = Π_{j=1..i}(1 + daily[j])`, and (all prices nonzero,
no missing data) `cumulative[i] = adjClose[i]/adjClose[0]`. -/
theorem C6_returns (d : DFrame) (xs : List ℚ)
    (hcol : d.col? "adjClose" = some xs) (hlen : 2 ≤ xs.length)
    (hnz : ∀ j, j < xs.length → xs.getD j 0 ≠ 0) :
    calculateReturns d = Except.ok (dailyList xs, cumulativeList xs) ∧
    (dailyList xs).getD 0 none = none ∧
    (∀ i, 1 ≤ i → i < xs.length →
      (dailyList xs).getD i none =
        some (xs.getD i 0 / xs.getD (i - 1) 0 - 1)) ∧
    (∀ i, 1 ≤ i → i < xs.length →
      (cumulativeList xs).getD i none =
        some (∏ j in Finset.Icc 1 i,
          (1 + (xs.getD j 0 / xs.getD (j - 1) 0 - 1))) ∧
      (cumulativeList xs).getD i none =
        some (xs.getD i 0 / xs.getD 0 0)) := by
  have hmem : "adjClose" ∈ d.colNames := mem_of_lookup_eq_some hcol
  have keyd : ∀ a b : ℚ, b ≠ 0 → (a - b) / b = a / b - 1 := by
    intro a b hb
    field_simp
  refine ⟨?_, ?_, ?_, ?_⟩
  · simp [calculateReturns, hmem, hcol]
  · exact dailyList_getD_zero xs (by omega)
  · intro i h1 h2
    obtain ⟨i', rfl⟩ : ∃ i', i = i' + 1 := ⟨i - 1, by omega⟩
    rw [dailyList_getD_succ xs (i' + 1) h1 h2]
    congr 1
    have e : i' + 1 - 1 = i' := by omega
    rw [e, pctTail_getD xs i' (by omega)]
    exact keyd _ _ (hnz i' (by omega))
  · intro i h1 h2
    have hc := cumulativeList_getD xs i h1 h2
    refine ⟨?_, ?_⟩
    · rw [hc]
      congr 1
      rw [← Nat.Ico_succ_right, Finset.prod_Ico_eq_prod_range]
      simp only [Nat.succ_sub_one]
      apply Finset.prod_congr rfl
      intro j hj
      have hjr := Finset.mem_range.mp hj
      have hb := hnz j (by omega)
      have e1 : 1 + j - 1 = j := by omega
      have e2 : 1 + j = j + 1 := by omega
      rw [e1, e2, pctTail_getD xs j (by omega), keyd _ _ hb]
    · rw [hc]
      congr 1
      exact prod_one_add_pctTail xs i h2 hnz

/-- Witness for C6: the spec's own example series `[100, 110, 121]` —
`daily = [undefined, 0.10, 0.10]`, `cumulative[2] = 1.21`. -/
theorem C6_returns_witness :
    (dailyList [100, 110, 121]).getD 2 none = some (1 / 10) ∧
    (cumulativeList [100, 110, 121]).getD 2 none = some (121 / 100) := by
  have h := C6_returns ⟨[("adjClose", [100, 110, 121])]⟩
    [100, 110, 121] (by simp [DFrame.col?, List.lookup]) (by norm_num)
    (by
      intro j hj
      simp only [List.length_cons, List.length_nil] at hj
      interval_cases j <;> norm_num)
  refine ⟨?_, ?_⟩
  · rw [h.2.2.1 2 (by norm_num) (by norm_num)]
    norm_num
  · rw [(h.2.2.2 2 (by norm_num) (by norm_num)).2]
    norm_num

/-! ## C7 — MACD and the form of the EWM -/

theorem ewmAux_length (α : ℚ) (xs : List ℚ) (num den : ℚ) :
    (ewmAux α xs num den).length = xs.length := by
  induction xs generalizing num den with
  | nil => rfl
  | cons x rest ih => simp [ewmAux, ih]

theorem ewmAux_getD (α : ℚ) (xs : List ℚ) (num den : ℚ) (t : ℕ)
    (ht : t < xs.length) :
    (ewmAux α xs num den).getD t 0 =
      ((1 - α) ^ (t + 1) * num +
        ∑ i in Finset.range (t + 1), (1 - α) ^ i * xs.getD (t - i) 0) /
      ((1 - α) ^ (t + 1) * den +
        ∑ i in Finset.range (t + 1), (1 - α) ^ i) := by
  induction xs generalizing num den t with
  | nil => simp at ht
  | cons x rest ih =>
      cases t with
      | zero =>
          simp only [ewmAux, List.getD_cons_zero, zero_add, pow_one,
            Finset.sum_range_one, pow_zero, one_mul, Nat.sub_zero]
      | succ t' =>
          simp only [ewmAux, List.getD_cons_succ]
          rw [ih ((1 - α) * num + x) ((1 - α) * den + 1) t'
            (by simpa using ht)]
          congr 1
          · have hsum : ∑ i in Finset.range (t' + 1),
                (1 - α) ^ i * (x :: rest).getD (t' + 1 - i) 0 =
                ∑ i in Finset.range (t' + 1),
                (1 - α) ^ i * rest.getD (t' - i) 0 := by
              apply Finset.sum_congr rfl
              intro i hi
              have hile := Finset.mem_range.mp hi
              have e : t' + 1 - i = (t' - i) + 1 := by omega
              rw [e, List.getD_cons_succ]
            conv_rhs => rw [Finset.sum_range_succ]
            rw [Nat.sub_self, List.getD_cons_zero, hsum]
            ring
          · conv_rhs => rw [Finset.sum_range_succ]
            ring

theorem ewm_getD (α : ℚ) (xs : List ℚ) (t : ℕ) (ht : t < xs.length) :
    (ewm α xs).getD t 0 = ewmWeighted α xs t := by
  unfold ewm ewmWeighted
  rw [ewmAux_getD α xs 0 0 t ht]
  simp

theorem getD_zipWith_sub :
    ∀ (as bs : List ℚ) (t : ℕ), t < as.length → t < bs.length →
    (List.zipWith (fun a b => a - b) as bs).getD t 0 =
      as.getD t 0 - bs.getD t 0
  | [], _, t, h, _ => by simp at h
  | _ :: _, [], t, _, h => by simp at h
  | a :: as, b :: bs, 0, _, _ => by simp
  | a :: as, b :: bs, t + 1, h1, h2 => by
      simp only [List.zipWith_cons_cons, List.getD_cons_succ]
      exact getD_zipWith_sub as bs t (by simpa using h1)
        (by simpa using h2)

theorem macdLine_length (xs : List ℚ) (fast slow signal : ℕ) :
    (macd xs fast slow signal).1.length = xs.length := by
  simp [macd, List.length_zipWith, ewm, ewmAux_length]

/-- C7 (amended): `macd` computes `emaFast`/`emaSlow` as the pandas
default (`adjust=True`) exponentially weighted mean with
`α = 2/(span+1)` — the *normalized weighted sum*
`y_t = (Σ_{i≤t}(1-α)^i x_{t-i}) / (Σ_{i≤t}(1-α)^i)`, not the
recursion `y_t = (1-α)y_{t-1} + αx_t` seeded at `x_0` — with no
minimum-period gating (every position defined), first output value
equal to the first observation, `macdLine = emaFast - emaSlow`, and
`signalLine` the same EWM of the MACD line with span `signal`. -/
theorem C7_macd (xs : List ℚ) (fast slow signal : ℕ) (t : ℕ)
    (ht : t < xs.length) :
    (macd xs fast slow signal).1.getD t 0 =
      ewmWeighted (2 / ((fast : ℚ) + 1)) xs t -
        ewmWeighted (2 / ((slow : ℚ) + 1)) xs t ∧
    (macd xs fast slow signal).2.getD t 0 =
      ewmWeighted (2 / ((signal : ℚ) + 1))
        (macd xs fast slow signal).1 t ∧
    (ewm (2 / ((fast : ℚ) + 1)) xs).getD 0 0 = xs.getD 0 0 ∧
    (ewm (2 / ((slow : ℚ) + 1)) xs).getD 0 0 = xs.getD 0 0 := by
  have hlf : (ewm (2 / ((fast : ℚ) + 1)) xs).length = xs.length := by
    simp [ewm, ewmAux_length]
  have hls : (ewm (2 / ((slow : ℚ) + 1)) xs).length = xs.length := by
    simp [ewm, ewmAux_length]
  have hline : (macd xs fast slow signal).1.length = xs.length :=
    macdLine_length xs fast slow signal
  refine ⟨?_, ?_, ?_, ?_⟩
  · show (List.zipWith (fun a b => a - b) _ _).getD t 0 = _
    rw [getD_zipWith_sub _ _ t (by omega) (by omega),
      ewm_getD _ xs t ht, ewm_getD _ xs t ht]
  · show (ewm _ (macd xs fast slow signal).1).getD t 0 = _
    rw [ewm_getD _ _ t (by omega)]
  · rw [ewm_getD _ xs 0 (by omega)]
    simp [ewmWeighted]
  · rw [ewm_getD _ xs 0 (by omega)]
    simp [ewmWeighted]

/-- Witness for C7 (amended): the series `[0, 1]` with the default-
style spans `(3, 7, 9)` at position 1. -/
theorem C7_macd_witness :
    (1 < ([0, 1] : List ℚ).length) ∧
    ((macd [0, 1] 3 7 9).1.getD 1 0 =
      ewmWeighted (2 / ((3 : ℚ) + 1)) [0, 1] 1 -
        ewmWeighted (2 / ((7 : ℚ) + 1)) [0, 1] 1) :=
  ⟨by norm_num, (C7_macd [0, 1] 3 7 9 1 (by norm_num)).1⟩

/-- C7: the claim read as the textbook recursive EWMA
(`y_0 = x_0`, `y_t = (1-α)y_{t-1} + αx_t`, the glossary's "recursive
smoothing") is false of the code: pandas `ewm(span=...).mean()` uses
`adjust=True`, the normalized weighted sum.  On `[0, 1]` with
`fast = 3`, `slow = 7` the code's MACD line at position 1 is
`2/3 - 4/7 = 2/21`, while the recursive EWMAs give
`1/2 - 1/4 = 1/4`. -/
theorem C7_counterexample :
    (macd [0, 1] 3 7 9).1 = [0, 2 / 21] ∧
    List.zipWith (fun a b => a - b)
      (emaRecSpec (2 / ((3 : ℚ) + 1)) [0, 1])
      (emaRecSpec (2 / ((7 : ℚ) + 1)) [0, 1]) = [0, 1 / 4] ∧
    ((2 : ℚ) / 21) ≠ 1 / 4 := by
  refine ⟨?_, ?_, by norm_num⟩
  · norm_num [macd, ewm, ewmAux]
  · norm_num [emaRecSpec, emaRecSpec.go]

/-! ## C8 — ATR precondition and true range -/

theorem shiftOne_getD_succ (c : List ℚ) (t' : ℕ)
    (h : t' + 1 < c.length) :
    (shiftOne c).getD (t' + 1) none = some (c.getD t' 0) := by
  unfold shiftOne
  rw [List.getD_cons_succ]
  have hl : t' < c.dropLast.length := by
    rw [List.length_dropLast]
    omega
  rw [getD_map_some _ t' hl 0]
  congr 1
  rw [List.getD_eq_getElem?_getD, List.getElem?_eq_getElem hl,
    List.getD_eq_getElem?_getD,
    List.getElem?_eq_getElem (by omega : t' < c.length)]
  simp [List.getElem_dropLast]

/-- C8: `atr` raises `MissingColumnError` iff one of
`high`, `low`, `adjClose` is absent; with all three present it returns,
without raising, the rolling mean of the true range, whose value at
every position `t ≥ 1` is
`max(high[t]-low[t], |high[t]-adjClose[t-1]|, |low[t]-adjClose[t-1]|)`. -/
theorem C8_atr (d : DFrame) (w : ℕ) :
    (atr d w = Except.error PyErr.missingColumn ↔
      ¬ ("high" ∈ d.colNames ∧ "low" ∈ d.colNames ∧
         "adjClose" ∈ d.colNames)) ∧
    (∀ hc lc cc : List ℚ, d.col? "high" = some hc →
      d.col? "low" = some lc → d.col? "adjClose" = some cc →
      atr d w = Except.ok (rollingMeanO w (trueRange hc lc cc)) ∧
      (∀ t, 1 ≤ t → t < hc.length → t < cc.length →
        (trueRange hc lc cc).getD t 0 =
          max (hc.getD t 0 - lc.getD t 0)
            (max |hc.getD t 0 - cc.getD (t - 1) 0|
                 |lc.getD t 0 - cc.getD (t - 1) 0|))) := by
  constructor
  · by_cases h : "high" ∈ d.colNames ∧ "low" ∈ d.colNames ∧
        "adjClose" ∈ d.colNames
    · simp [atr, h]
    · simp [atr, h]
  · intro hc lc cc hh hl hcc
    have hmem : "high" ∈ d.colNames ∧ "low" ∈ d.colNames ∧
        "adjClose" ∈ d.colNames :=
      ⟨mem_of_lookup_eq_some hh, mem_of_lookup_eq_some hl,
        mem_of_lookup_eq_some hcc⟩
    constructor
    · simp [atr, hmem, hh, hl, hcc]
    · intro t h1 h2 h3
      obtain ⟨t', rfl⟩ : ∃ t', t = t' + 1 := ⟨t - 1, by omega⟩
      unfold trueRange
      rw [getD_range_map _ _ _ _ h2, shiftOne_getD_succ cc t' h3]
      simp only [Nat.add_sub_cancel]

/-- Witness for C8: a two-row frame with all three required columns. -/
theorem C8_atr_witness :
    atr ⟨[("high", [2, 3]), ("low", [1, 1]), ("adjClose", [1, 2])]⟩ 1 =
      Except.ok (rollingMeanO 1 (trueRange [2, 3] [1, 1] [1, 2])) ∧
    (trueRange [2, 3] [1, 1] [1, 2]).getD 1 0 =
      max ((3 : ℚ) - 1) (max |(3 : ℚ) - 1| |(1 : ℚ) - 1|) := by
  have h := (C8_atr
    ⟨[("high", [2, 3]), ("low", [1, 1]), ("adjClose", [1, 2])]⟩ 1).2
    [2, 3] [1, 1] [1, 2]
    (by simp [DFrame.col?, List.lookup])
    (by simp [DFrame.col?, List.lookup])
    (by simp [DFrame.col?, List.lookup])
  refine ⟨h.1, ?_⟩
  rw [h.2 1 (by norm_num) (by norm_num) (by norm_num)]
  norm_num

/-! ## C9 — Bollinger band algebra -/

theorem rollingMeanO_getD_undef (w : ℕ) (xs : List ℚ) (t : ℕ)
    (h : t + 1 < w) : (rollingMeanO w xs).getD t none = none := by
  by_cases ht : t < xs.length
  · unfold rollingMeanO
    rw [getD_range_map _ _ _ _ ht, if_pos h]
  · rw [List.getD_eq_getElem?_getD, List.getElem?_len_le]
    · rfl
    · rw [rollingMeanO_length]
      omega

theorem rollingVarO_getD_some {w : ℕ} {xs : List ℚ} {t : ℕ} {v : ℚ}
    (h : (rollingVarO w xs).getD t none = some v) :
    t < xs.length ∧ w ≤ t + 1 ∧ 2 ≤ w := by
  by_cases ht : t < xs.length
  · unfold rollingVarO at h
    rw [getD_range_map _ _ _ _ ht] at h
    by_cases hc : t + 1 < w ∨ w < 2
    · rw [if_pos hc] at h
      cases h
    · push_neg at hc
      exact ⟨ht, by omega, by omega⟩
  · rw [List.getD_eq_getElem?_getD, List.getElem?_len_le
      (by simp [rollingVarO]; omega)] at h
    cases h

/-- C9: at every index, `upper - lower = 2·numStd·std` (both sides
undefined together), the middle band at every defined index is the
`w`-point simple moving average, and all three bands are undefined on
the first `w - 1` points. -/
theorem C9_bollinger (xs : List ℚ) (w : ℕ) (k : ℚ) :
    (∀ t, osub (bollUpper w k xs t) (bollLower w k xs t) =
      (rollingStdO w xs t).map (fun s => 2 * (k : ℝ) * s)) ∧
    (∀ t, t < xs.length → w ≤ t + 1 →
      bollMiddle w xs t = some (smaAt w xs t)) ∧
    (∀ t, t + 1 < w → bollUpper w k xs t = none ∧
      bollLower w k xs t = none ∧ bollMiddle w xs t = none) := by
  refine ⟨?_, ?_, ?_⟩
  · intro t
    cases hs : rollingStdO w xs t with
    | none =>
        cases hm : bollMiddle w xs t <;>
          simp [bollUpper, bollLower, osub, hm, hs]
    | some s =>
        have hex : ∃ v, (rollingVarO w xs).getD t none = some v ∧
            s = Real.sqrt (v : ℝ) := by
          unfold rollingStdO at hs
          cases hvv : (rollingVarO w xs).getD t none with
          | none => rw [hvv] at hs; cases hs
          | some v =>
              rw [hvv] at hs
              exact ⟨v, rfl, by simpa using hs.symm⟩
        obtain ⟨v, hv, rfl⟩ := hex
        have hcond := rollingVarO_getD_some hv
        have hm : bollMiddle w xs t = some (smaAt w xs t) := by
          unfold bollMiddle
          rw [rollingMeanO_getD_of_le w xs t hcond.1 hcond.2.1]
          rfl
        simp only [bollUpper, bollLower, hm, hs, osub,
          Option.map_some']
        congr 1
        ring
  · intro t ht hw
    unfold bollMiddle
    rw [rollingMeanO_getD_of_le w xs t ht hw]
    rfl
  · intro t ht
    have hm : bollMiddle w xs t = none := by
      unfold bollMiddle
      exact rollingMeanO_getD_undef w xs t ht
    refine ⟨?_, ?_, hm⟩ <;> simp [bollUpper, bollLower, hm]

/-- Witness for C9: the series `[0, 2, 4]`, window 3, `numStd = 2`,
at the one defined position 2 (and undefined position 0). -/
theorem C9_bollinger_witness :
    osub (bollUpper 3 2 [0, 2, 4] 2) (bollLower 3 2 [0, 2, 4] 2) =
      (rollingStdO 3 [0, 2, 4] 2).map
        (fun s => 2 * ((2 : ℚ) : ℝ) * s) ∧
    bollMiddle 3 [0, 2, 4] 2 = some (smaAt 3 [0, 2, 4] 2) ∧
    bollUpper 3 2 [0, 2, 4] 0 = none :=
  ⟨(C9_bollinger [0, 2, 4] 3 2).1 2,
   (C9_bollinger [0, 2, 4] 3 2).2.1 2 (by norm_num) (by norm_num),
   ((C9_bollinger [0, 2, 4] 3 2).2.2 0 (by norm_num)).1⟩
